import Mathlib

/-!
Verification of the mil-fork repository against its natural-language
specification.  The Python sources are shallowly embedded in Lean: pure
functions become Lean functions over `ℚ`/`Nat`, stateful test callbacks
become explicit state transformers, and the timed loops of the integration
test become trace-producing recursive functions.  The production alarm bus
and heartbeat watchdog are not present under the sources (only the
integration test that drives them is), so those two components are modelled
from the specification text, as marked in their doc comments.
-/

namespace MilFork

/-! ## Thruster calibration
Embedding of `sub8_thrust_and_kill_board/thruster.py`.  Numeric values are
modelled by `ℚ` (the code uses numpy floating point; the claims under test
are structural, not about rounding). -/

/-- numpy `polyval(p, x)`: Horner evaluation, highest-degree coefficient
first; the empty coefficient list evaluates to `0`. -/
def polyval (p : List ℚ) (x : ℚ) : ℚ :=
  p.foldl (fun acc c => acc * x + c) 0

/-- numpy `clip(x, lo, hi) = minimum(maximum(x, lo), hi)`. -/
def npClip (x lo hi : ℚ) : ℚ :=
  min (max x lo) hi

/-- `Thruster.__init__`: the two calibration coefficient vectors. -/
structure Thruster where
  forward_calibration : List ℚ
  backward_calibration : List ℚ

/-- `Thruster.effort_from_thrust_unclipped`: backward calibration for
negative thrust, forward calibration otherwise. -/
def Thruster.effort_from_thrust_unclipped (th : Thruster) (thrust : ℚ) : ℚ :=
  if thrust < 0 then polyval th.backward_calibration thrust
  else polyval th.forward_calibration thrust

/-- `Thruster.effort_from_thrust`: the unclipped effort clipped into
`[-0.58, 0.58]`. -/
def Thruster.effort_from_thrust (th : Thruster) (thrust : ℚ) : ℚ :=
  npClip (th.effort_from_thrust_unclipped thrust) (-0.58) 0.58

/-- Claim C7: `effort_from_thrust` is a pure polynomial evaluation followed
by a clamp: for every thrust it returns `polyval(backward_calibration, t)`
when `t < 0` and `polyval(forward_calibration, t)` otherwise, clipped into
`[-0.58, 0.58]`; thrust `0` in particular uses the forward calibration.
Purity is inherent in the embedding: the result is a function of the
calibration vectors and the thrust argument alone, and nothing is mutated. -/
theorem effort_from_thrust_is_polyval_then_clamp :
    ∀ (th : Thruster) (t : ℚ),
      th.effort_from_thrust t =
        npClip (if t < 0 then polyval th.backward_calibration t
                else polyval th.forward_calibration t) (-0.58) 0.58
      ∧ th.effort_from_thrust 0 =
          npClip (polyval th.forward_calibration 0) (-0.58) 0.58 := by
  intro th t
  constructor
  · rfl
  · simp [Thruster.effort_from_thrust, Thruster.effort_from_thrust_unclipped]

/-- Claim C9: for every thruster (any calibration vectors) and every thrust
input, `effort_from_thrust` lies in the closed interval `[-0.58, 0.58]`. -/
theorem effort_from_thrust_bounded :
    ∀ (th : Thruster) (t : ℚ),
      -0.58 ≤ th.effort_from_thrust t ∧ th.effort_from_thrust t ≤ 0.58 := by
  intro th t
  unfold Thruster.effort_from_thrust npClip
  refine ⟨le_min ?_ ?_, min_le_right _ _⟩
  · exact le_max_right _ _
  · norm_num

/-! ## The integration test `kill_board_test_4.py`
Embedding of the `killtest` class.  Python alarm objects are modelled with
an explicit address field so that object identity (and hence the deep-copy
behaviour of `wait_for_kill_update`) is observable; the module-level `Lock`
is modelled by treating each locked section (`_hw_kill_cb`,
`_network_kill_cb`, `reset_update`, and one poll iteration of
`wait_for_kill_update`) as an atomic state transformer. -/

/-- A Python alarm object as seen by the test: its heap address plus the
`raised` flag the test reads. -/
structure AlarmObj where
  addr : Nat
  raised : Bool
deriving DecidableEq, Repr

/-- The shared mutable fields of the `killtest` instance that the lock
guards. -/
structure KilltestState where
  hw_kill_alarm : Option AlarmObj
  network_kill_alarm : Option AlarmObj
  hardware_updated : Bool
  network_updated : Bool
deriving DecidableEq, Repr

/-- The condition of `_hw_kill_cb` (and, symmetrically, of
`_network_kill_cb`): the stored alarm is `None` or the new raised flag
differs from the stored one. -/
def cbCondition (prev : Option AlarmObj) (a : AlarmObj) : Bool :=
  match prev with
  | none => true
  | some p => a.raised != p.raised

/-- `killtest._hw_kill_cb`: under the lock, raise the hardware updated flag
when the stored alarm is `None` or its raised flag differs, then store the
new alarm. -/
def hwKillCb (s : KilltestState) (a : AlarmObj) : KilltestState :=
  if cbCondition s.hw_kill_alarm a then
    { s with hardware_updated := true, hw_kill_alarm := some a }
  else
    { s with hw_kill_alarm := some a }

/-- `killtest._network_kill_cb`: the network-side twin of `hwKillCb`. -/
def networkKillCb (s : KilltestState) (a : AlarmObj) : KilltestState :=
  if cbCondition s.network_kill_alarm a then
    { s with network_updated := true, network_kill_alarm := some a }
  else
    { s with network_kill_alarm := some a }

/-- `killtest.reset_update`: under the lock, lower both updated flags. -/
def resetUpdate (s : KilltestState) : KilltestState :=
  { s with hardware_updated := false, network_updated := false }

/-- Python `deepcopy` on an optional alarm object: the value is preserved
but the copy lives at a fresh address. -/
def deepcopyAlarm (fresh : Nat) : Option AlarmObj → Option AlarmObj
  | none => none
  | some a => some { a with addr := fresh }

/-- The flag disjunction `wait_for_kill_update` polls for. -/
def updateSeen (s : KilltestState) : Bool :=
  s.hardware_updated || s.network_updated

/-- The polling loop of `killtest.wait_for_kill_update`.  `obs i` is the
shared state observed (atomically, under the lock) on the i-th poll
iteration; each iteration ends with `rospy.sleep(0.01)`, so iteration `i`
runs at `10*i` milliseconds after entry and the loop runs while that is
below the timeout.  `fresh` and `fresh + 1` are the heap addresses
`deepcopy` allocates for the two copied alarms. -/
def waitAux (obs : Nat → KilltestState) (fresh : Nat) :
    Nat → Nat → Except String (Option AlarmObj × Option AlarmObj)
  | _, 0 => .error "timeout"
  | i, fuel + 1 =>
    let s := obs i
    if updateSeen s then
      .ok (deepcopyAlarm fresh s.hw_kill_alarm,
           deepcopyAlarm (fresh + 1) s.network_kill_alarm)
    else
      waitAux obs fresh (i + 1) fuel

/-- Number of poll iterations that start before `timeoutMs` elapses, at one
iteration per 10 ms. -/
def waitIters (timeoutMs : Nat) : Nat :=
  (timeoutMs + 9) / 10

/-- `killtest.wait_for_kill_update` with timeout in milliseconds. -/
def waitForKillUpdate (obs : Nat → KilltestState) (fresh timeoutMs : Nat) :
    Except String (Option AlarmObj × Option AlarmObj) :=
  waitAux obs fresh 0 (waitIters timeoutMs)

/-- `alarm[k].raised if alarm[k] is not None else True`, the per-alarm check
shared by `assert_raised` and `assert_cleared`. -/
def alarmPass : Option AlarmObj → Bool
  | some a => a.raised
  | none => true

/-- `killtest.assert_raised` succeeds when the conjunction of the two
per-alarm checks is `True`. -/
def assertRaisedPasses (p : Option AlarmObj × Option AlarmObj) : Bool :=
  alarmPass p.1 && alarmPass p.2

/-- `killtest.assert_cleared` succeeds when the conjunction of the two
per-alarm checks is `False`. -/
def assertClearedPasses (p : Option AlarmObj × Option AlarmObj) : Bool :=
  !(alarmPass p.1 && alarmPass p.2)

/-- Helper: if the first flagged iteration among the fuel-many remaining
ones is `k` steps ahead, the poll loop returns the deep copies taken from
exactly that observation. -/
lemma waitAux_hits (obs : Nat → KilltestState) (fresh : Nat) :
    ∀ (k i fuel : Nat), k < fuel →
      updateSeen (obs (i + k)) = true →
      (∀ j, j < k → updateSeen (obs (i + j)) = false) →
      waitAux obs fresh i fuel =
        .ok (deepcopyAlarm fresh (obs (i + k)).hw_kill_alarm,
             deepcopyAlarm (fresh + 1) (obs (i + k)).network_kill_alarm) := by
  intro k
  induction k with
  | zero =>
    intro i fuel hk hseen _
    cases fuel with
    | zero => exact absurd hk (Nat.lt_irrefl 0)
    | succ f => simp only [waitAux, Nat.add_zero] at hseen ⊢; simp [hseen]
  | succ k ih =>
    intro i fuel hk hseen hmin
    cases fuel with
    | zero => exact absurd hk (Nat.not_lt_zero _)
    | succ f =>
      have h0 : updateSeen (obs i) = false := by
        have := hmin 0 (Nat.succ_pos _)
        simpa using this
      have hk' : k < f := Nat.lt_of_succ_lt_succ hk
      have hseen' : updateSeen (obs (i + 1 + k)) = true := by
        have : i + 1 + k = i + (k + 1) := by omega
        rw [this]; exact hseen
      have hmin' : ∀ j, j < k → updateSeen (obs (i + 1 + j)) = false := by
        intro j hj
        have : i + 1 + j = i + (j + 1) := by omega
        rw [this]
        exact hmin (j + 1) (Nat.succ_lt_succ hj)
      have := ih (i + 1) f hk' hseen' hmin'
      simp only [waitAux, h0, Bool.false_eq_true, if_false]
      have harg : i + 1 + k = i + (k + 1) := by omega
      rw [harg] at this
      exact this

/-- Helper: if no iteration within the fuel is flagged, the poll loop times
out. -/
lemma waitAux_times_out (obs : Nat → KilltestState) (fresh : Nat) :
    ∀ (fuel i : Nat),
      (∀ j, j < fuel → updateSeen (obs (i + j)) = false) →
      waitAux obs fresh i fuel = .error "timeout" := by
  intro fuel
  induction fuel with
  | zero => intro i _; rfl
  | succ f ih =>
    intro i h
    have h0 : updateSeen (obs i) = false := by simpa using h 0 (Nat.succ_pos _)
    have h' : ∀ j, j < f → updateSeen (obs (i + 1 + j)) = false := by
      intro j hj
      have : i + 1 + j = i + (j + 1) := by omega
      rw [this]
      exact h (j + 1) (Nat.succ_lt_succ hj)
    simp only [waitAux, h0, Bool.false_eq_true, if_false]
    exact ih (i + 1) h'

/-- Claim C5: `wait_for_kill_update` busy-polls at a fixed 10 ms period
until the timeout, each iteration atomically (under the lock) reading both
updated flags and deep copies of both stored alarms; it returns the
deep-copied pair as soon as either flag is observed true, raises the
`"timeout"` exception when no iteration before the timeout sees a flag, and
the returned objects are deep copies living at the fresh addresses — never
the shared objects themselves (their `addr` is the fresh allocation, only
the `raised` payload is carried over). -/
theorem wait_for_kill_update_behaviour :
    (∀ (obs : Nat → KilltestState) (fresh timeoutMs i0 : Nat),
        i0 < waitIters timeoutMs →
        updateSeen (obs i0) = true →
        (∀ j, j < i0 → updateSeen (obs j) = false) →
        waitForKillUpdate obs fresh timeoutMs =
          .ok (deepcopyAlarm fresh (obs i0).hw_kill_alarm,
               deepcopyAlarm (fresh + 1) (obs i0).network_kill_alarm))
    ∧ (∀ (obs : Nat → KilltestState) (fresh timeoutMs : Nat),
        (∀ j, j < waitIters timeoutMs → updateSeen (obs j) = false) →
        waitForKillUpdate obs fresh timeoutMs = .error "timeout")
    ∧ (∀ (fresh : Nat) (oa : Option AlarmObj) (a b : AlarmObj),
        deepcopyAlarm fresh oa = some a → oa = some b →
        a.addr = fresh ∧ a.raised = b.raised) := by
  refine ⟨?_, ?_, ?_⟩
  · intro obs fresh timeoutMs i0 hlt hseen hmin
    have := waitAux_hits obs fresh i0 0 (waitIters timeoutMs) hlt
      (by simpa using hseen) (by intro j hj; simpa using hmin j hj)
    simpa [waitForKillUpdate] using this
  · intro obs fresh timeoutMs h
    have := waitAux_times_out obs fresh (waitIters timeoutMs) 0
      (by intro j hj; simpa using h j hj)
    simpa [waitForKillUpdate] using this
  · intro fresh oa a b hcopy hstore
    subst hstore
    simp only [deepcopyAlarm, Option.some.injEq] at hcopy
    subst hcopy
    exact ⟨rfl, rfl⟩

/-- A concrete observation trace for the poll loop: the hardware flag goes
up on the third iteration. -/
def waitObsEx : Nat → KilltestState := fun i =>
  if i = 2 then ⟨some ⟨0, true⟩, none, true, false⟩
  else ⟨none, none, false, false⟩

/-- Witness for claim C5 at a concrete trace, allocator address 7 and a
1000 ms timeout. -/
theorem wait_for_kill_update_behaviour_witness :
    waitForKillUpdate waitObsEx 7 1000 =
      .ok (deepcopyAlarm 7 (waitObsEx 2).hw_kill_alarm,
           deepcopyAlarm (7 + 1) (waitObsEx 2).network_kill_alarm) :=
  wait_for_kill_update_behaviour.1 waitObsEx 7 1000 2 (by decide) (by decide)
    (by decide)

/-- Claim C6: `_hw_kill_cb` raises the hardware updated flag exactly when
the stored alarm was `None` or the raised value changed (otherwise the flag
keeps its previous value), always stores the new alarm, and leaves the
network-side fields alone; `_network_kill_cb` is its exact mirror; and
`reset_update` lowers both flags while leaving both stored alarms alone.
Each of the three runs atomically under the single module-level lock, which
the embedding captures by making each one a single state transformer. -/
theorem test_callbacks_update_flags :
    ∀ (s : KilltestState) (a : AlarmObj),
      (hwKillCb s a).hardware_updated =
        (cbCondition s.hw_kill_alarm a || s.hardware_updated)
      ∧ (hwKillCb s a).hw_kill_alarm = some a
      ∧ (hwKillCb s a).network_updated = s.network_updated
      ∧ (hwKillCb s a).network_kill_alarm = s.network_kill_alarm
      ∧ (networkKillCb s a).network_updated =
          (cbCondition s.network_kill_alarm a || s.network_updated)
      ∧ (networkKillCb s a).network_kill_alarm = some a
      ∧ (networkKillCb s a).hardware_updated = s.hardware_updated
      ∧ (networkKillCb s a).hw_kill_alarm = s.hw_kill_alarm
      ∧ (resetUpdate s).hardware_updated = false
      ∧ (resetUpdate s).network_updated = false
      ∧ (resetUpdate s).hw_kill_alarm = s.hw_kill_alarm
      ∧ (resetUpdate s).network_kill_alarm = s.network_kill_alarm := by
  intro s a
  cases h1 : cbCondition s.hw_kill_alarm a <;>
    cases h2 : cbCondition s.network_kill_alarm a <;>
      simp [hwKillCb, networkKillCb, resetUpdate, h1, h2]

/-- Claim C8: `assert_cleared` succeeds exactly when at least one of the two
returned alarm slots holds a non-`None` alarm with `raised == false` — it
does not establish that both alarms are cleared (second conjunct: it passes
while the network alarm is still raised); dually a slot that never received
an alarm counts as raised, so `assert_raised` passes with one slot `None`
(third conjunct) and even with both slots `None` (fourth conjunct). -/
theorem assert_checks_are_one_sided :
    (∀ p : Option AlarmObj × Option AlarmObj,
        assertClearedPasses p = true ↔
          ((∃ a, p.1 = some a ∧ a.raised = false) ∨
           (∃ a, p.2 = some a ∧ a.raised = false)))
    ∧ assertClearedPasses (some ⟨0, false⟩, some ⟨1, true⟩) = true
    ∧ assertRaisedPasses (none, some ⟨1, true⟩) = true
    ∧ assertRaisedPasses (none, none) = true := by
  refine ⟨?_, by decide, by decide, by decide⟩
  rintro ⟨oa, ob⟩
  rcases oa with _ | a <;> rcases ob with _ | b <;>
    simp [assertClearedPasses, assertRaisedPasses, alarmPass]

/-! ## The scenario of `killtest.test_4_remote`
The body of the test method is embedded as the trace of externally visible
actions it performs, with time in milliseconds.  A publish loop `while
rospy.Time.now() < t_end: publish(Header(stamp=now)); rate.sleep()` at
`rospy.Rate(10)` emits one stamped message every 100 ms. -/

/-- One externally visible action of the test body. -/
inductive TestEvent where
  /-- publish a `Header` on `/network` stamped with the current time -/
  | publish (stamp : Nat)
  /-- call `reset_update` -/
  | resetUpdate
  /-- `rospy.sleep` for the given milliseconds -/
  | sleep (ms : Nat)
  /-- call `assert_raised` with the given wait in milliseconds -/
  | assertRaised (waitMs : Nat)
  /-- call `clear_alarm` on the broadcaster bound to the given alarm name -/
  | clearAlarm (name : String)
  /-- call `assert_cleared` with the given wait in milliseconds -/
  | assertCleared (waitMs : Nat)
deriving DecidableEq, Repr

/-- The publishing loop of `test_4_remote`: publish a message stamped with
the current time, then sleep one 100 ms rate period, while the current time
is below `tEnd`. -/
def publishLoop (now tEnd : Nat) : List TestEvent :=
  if _h : now < tEnd then .publish now :: publishLoop (now + 100) tEnd
  else []
termination_by tEnd - now
decreasing_by omega

/-- The trace of `killtest.test_4_remote`, straight from the code: publish
for 1 s starting at `t0`, `reset_update`, sleep 8.5 s, `assert_raised`
(default 1 s wait), `reset_update`, publish for 1 s starting at `t1` (the
wall-clock time when the second loop begins), `clear_alarm` on the `"kill"`
broadcaster, `assert_cleared` (default 1 s wait). -/
def test4Trace (t0 t1 : Nat) : List TestEvent :=
  publishLoop t0 (t0 + 1000)
    ++ [.resetUpdate, .sleep 8500, .assertRaised 1000, .resetUpdate]
    ++ publishLoop t1 (t1 + 1000)
    ++ [.clearAlarm "kill", .assertCleared 1000]

/-- The scenario as the claim states it: ten stamped messages at 100 ms
cadence, stop, sleep 8.5 s, assert raised within a 1 s wait, ten more
stamped messages at 100 ms cadence, force-clear the aggregate `"kill"`
alarm, assert cleared within a 1 s wait. -/
def claimedTest4Trace (t0 t1 : Nat) : List TestEvent :=
  ((List.range 10).map fun i => .publish (t0 + 100 * i))
    ++ [.resetUpdate, .sleep 8500, .assertRaised 1000, .resetUpdate]
    ++ ((List.range 10).map fun i => .publish (t1 + 100 * i))
    ++ [.clearAlarm "kill", .assertCleared 1000]

/-- Helper: a publish loop over a window of `k` whole rate periods emits
exactly `k` messages stamped 100 ms apart. -/
lemma publishLoop_eq_range (k : Nat) :
    ∀ now : Nat, publishLoop now (now + 100 * k) =
      (List.range k).map fun i => .publish (now + 100 * i) := by
  induction k with
  | zero =>
    intro now
    rw [publishLoop]
    simp
  | succ k ih =>
    intro now
    rw [publishLoop]
    have hlt : now < now + 100 * (k + 1) := by omega
    simp only [hlt, dif_pos]
    have harg : now + 100 * (k + 1) = (now + 100) + 100 * k := by omega
    rw [harg, ih (now + 100), List.range_succ_eq_map, List.map_cons,
      List.map_map]
    refine congrArg₂ _ (by simp) ?_
    refine List.map_congr_left ?_
    intro i _
    simp only [Function.comp]
    exact congrArg TestEvent.publish (by omega)

/-- Claim C1: `test_4_remote` performs exactly the claimed scenario in
order, for any start times of its two publishing phases: ten timestamped
liveness messages at 100 ms cadence over 1 s, then `reset_update`, an
8.5 s sleep, `assert_raised` with a 1 s wait, `reset_update`, ten more
timestamped messages at 100 ms cadence over 1 s, the administrative
force-clear on the aggregate `"kill"` alarm, and `assert_cleared` with a
1 s wait. -/
theorem test_4_remote_trace :
    ∀ t0 t1 : Nat, test4Trace t0 t1 = claimedTest4Trace t0 t1 := by
  intro t0 t1
  unfold test4Trace claimedTest4Trace
  have h0 : (1000 : Nat) = 100 * 10 := by norm_num
  rw [h0, publishLoop_eq_range 10 t0, publishLoop_eq_range 10 t1]

/-! ## `BagImageExtractorSource.extract_images`
Embedding of the extraction loop of `extract_bag_images.py`.  Bag time is
modelled by `ℚ` (ROS time is a fixed-point count of nanoseconds).
`rosbag.read_messages(start_time=start, end_time=stop)` yields, in
chronological bag order, exactly the messages whose timestamp lies in the
inclusive window, which the embedding renders as a filter over the list of
message timestamps. -/

/-- The inclusive time window `read_messages` applies: at or after `start`,
and at or before `stop` when a stop time is configured. -/
def inRange (start : ℚ) (stop : Option ℚ) (t : ℚ) : Bool :=
  decide (start ≤ t) &&
    (match stop with
     | some s => decide (t ≤ s)
     | none => true)

/-- `interval = rospy.Duration(1.0 / self.freq) if self.freq else
rospy.Duration(0)`. -/
def intervalOf : Option ℚ → ℚ
  | some f => 1 / f
  | none => 0

/-- The body of the extraction loop: save a message exactly when its time
has reached `next_time`, and on saving set `next_time = time + interval`.
Returns the timestamps of the saved images. -/
def extractLoop (interval : ℚ) : ℚ → List ℚ → List ℚ
  | _, [] => []
  | nextTime, t :: ts =>
    if nextTime ≤ t then t :: extractLoop interval (t + interval) ts
    else extractLoop interval nextTime ts

/-- `BagImageExtractorSource.extract_images` restricted to what it saves:
`next_time` starts at `start` and the loop runs over the in-window
messages. -/
def extractImages (start : ℚ) (stop : Option ℚ) (freq : Option ℚ)
    (times : List ℚ) : List ℚ :=
  extractLoop (intervalOf freq) start (times.filter (inRange start stop))

/-- Helper: the first image the loop saves is stamped no earlier than the
pending `next_time`. -/
lemma extractLoop_head_ge (interval : ℚ) :
    ∀ (ts : List ℚ) (nt h : ℚ),
      (extractLoop interval nt ts).head? = some h → nt ≤ h := by
  intro ts
  induction ts with
  | nil => intro nt h hh; simp [extractLoop] at hh
  | cons t ts ih =>
    intro nt h hh
    by_cases hc : nt ≤ t
    · simp only [extractLoop, if_pos hc, List.head?_cons,
        Option.some.injEq] at hh
      exact hh ▸ hc
    · exact ih nt h (by simpa [extractLoop, if_neg hc] using hh)

/-- Helper: successive saved timestamps are at least one interval apart. -/
lemma extractLoop_chain (interval : ℚ) :
    ∀ (ts : List ℚ) (nt : ℚ),
      List.Chain' (fun a b => a + interval ≤ b) (extractLoop interval nt ts) := by
  intro ts
  induction ts with
  | nil => intro nt; simp [extractLoop]
  | cons t ts ih =>
    intro nt
    by_cases hc : nt ≤ t
    · simp only [extractLoop, if_pos hc]
      rw [List.chain'_cons']
      exact ⟨fun h hh => extractLoop_head_ge interval ts (t + interval) h hh,
        ih (t + interval)⟩
    · simpa [extractLoop, if_neg hc] using ih nt

/-- Helper: whatever the loop saves is a sublist of the message stream it
reads. -/
lemma extractLoop_sublist (interval : ℚ) :
    ∀ (ts : List ℚ) (nt : ℚ), (extractLoop interval nt ts).Sublist ts := by
  intro ts
  induction ts with
  | nil => intro nt; simp [extractLoop]
  | cons t ts ih =>
    intro nt
    by_cases hc : nt ≤ t
    · simpa [extractLoop, if_pos hc] using (ih (t + interval)).cons₂ t
    · simpa [extractLoop, if_neg hc] using (ih nt).cons t

/-- Helper: with a zero interval the loop saves every message of a
chronologically ordered stream whose head has reached `next_time`. -/
lemma extractLoop_zero_eq :
    ∀ ts : List ℚ, List.Chain' (· ≤ ·) ts →
      ∀ nt : ℚ, (∀ h ∈ ts.head?, nt ≤ h) → extractLoop 0 nt ts = ts := by
  intro ts
  induction ts with
  | nil => intro _ nt _; rfl
  | cons t ts ih =>
    intro hchain nt hhead
    have hnt : nt ≤ t := hhead t (by simp)
    rw [List.chain'_cons'] at hchain
    simp only [extractLoop, if_pos hnt, add_zero]
    exact congrArg (t :: ·)
      (ih hchain.2 t fun h hh => le_of_lt_or_eq
        (lt_or_eq_of_le (hchain.1 h hh)))

/-- Claim C10: with a configured frequency the saved images are spaced at
least `1/freq` apart in bag time (each save pushes `next_time` to
`time + 1/freq` and only messages past `next_time` are saved); only
in-window messages are ever saved; the first in-window message is always
saved; and with no frequency configured (interval 0) every in-window
message of a chronologically ordered bag is saved. -/
theorem extract_images_frequency_behaviour :
    (∀ (start : ℚ) (stop : Option ℚ) (f : ℚ) (times : List ℚ),
        List.Chain' (fun a b => a + 1 / f ≤ b)
          (extractImages start stop (some f) times))
    ∧ (∀ (start : ℚ) (stop : Option ℚ) (freq : Option ℚ) (times : List ℚ),
        (extractImages start stop freq times).Sublist
          (times.filter (inRange start stop)))
    ∧ (∀ (start : ℚ) (stop : Option ℚ) (freq : Option ℚ) (times : List ℚ)
          (t : ℚ) (rest : List ℚ),
        times.filter (inRange start stop) = t :: rest →
        (extractImages start stop freq times).head? = some t)
    ∧ (∀ (start : ℚ) (stop : Option ℚ) (times : List ℚ),
        List.Chain' (· ≤ ·) times →
        extractImages start stop none times =
          times.filter (inRange start stop)) := by
  refine ⟨?_, ?_, ?_, ?_⟩
  · intro start stop f times
    exact extractLoop_chain (1 / f) _ start
  · intro start stop freq times
    exact extractLoop_sublist _ _ start
  · intro start stop freq times t rest hfilter
    have htmem : t ∈ times.filter (inRange start stop) := by
      rw [hfilter]; exact List.mem_cons_self t rest
    have hrange : inRange start stop t = true := (List.mem_filter.mp htmem).2
    have hst : start ≤ t := by
      have := hrange
      simp only [inRange, Bool.and_eq_true, decide_eq_true_eq] at this
      exact this.1
    rw [extractImages, hfilter]
    simp [extractLoop, if_pos hst]
  · intro start stop times hsorted
    rw [extractImages]
    refine extractLoop_zero_eq _ ?_ start ?_
    · exact List.Chain'.sublist hsorted (List.filter_sublist times)
    · intro h hh
      have hmem : h ∈ times.filter (inRange start stop) :=
        List.mem_of_mem_head? hh
      have hrange : inRange start stop h = true := (List.mem_filter.mp hmem).2
      simp only [inRange, Bool.and_eq_true, decide_eq_true_eq] at hrange
      exact hrange.1

/-- Witness for claim C10: with no frequency configured the extractor saves
every in-window message of an ordered three-message bag. -/
theorem extract_images_frequency_behaviour_witness :
    extractImages 0 none none [0, 1, 2] =
      List.filter (inRange 0 none) [0, 1, 2] :=
  extract_images_frequency_behaviour.2.2.2 0 none [0, 1, 2]
    (by norm_num [List.chain'_cons])

/-! ## The alarm bus
Modelled from the spec: the `ros_alarms` bus implementation
(`AlarmBroadcaster`, `AlarmListener` and the server behind them) is not
among the sources — only the integration test that drives it is — so the
bus is built from the specification text of sections 3 and 4.1–4.3: a
registry from alarm name to current record, created lazily with a default
cleared record of sequence 0; `broadcast` constructs a new record with the
sequence advanced by one and delivers it to every listener registered for
that name; `subscribe` registers a callback and synchronously delivers the
current snapshot before returning.  Listener callbacks are identified by
numeric ids and deliveries are recorded in a chronological log. -/

/-- Modelled from the spec: the immutable alarm snapshot of section 3. -/
structure AlarmRecord where
  name : String
  raised : Bool
  problemDescription : Option String
  raisedBy : String
  sequence : Nat
  observedAt : Nat
deriving DecidableEq, Repr

/-- Modelled from the spec: the default cleared record a name starts with
(`{raised: false, sequence: 0}`). -/
def defaultRecord (name : String) : AlarmRecord :=
  { name := name, raised := false, problemDescription := none,
    raisedBy := "", sequence := 0, observedAt := 0 }

/-- Modelled from the spec: the bus registry, the per-name listener
registrations, and the chronological log of deliveries (listener id paired
with the record delivered). -/
structure AlarmBus where
  records : List (String × AlarmRecord)
  subs : List (String × Nat)
  log : List (Nat × AlarmRecord)
deriving DecidableEq, Repr

/-- The bus with no broadcasts, registrations or deliveries yet. -/
def AlarmBus.empty : AlarmBus := ⟨[], [], []⟩

/-- Modelled from the spec: `getOrCreate` as a read — the current record
for a name, defaulting to the cleared sequence-0 record. -/
def getRecord (bus : AlarmBus) (name : String) : AlarmRecord :=
  (bus.records.lookup name).getD (defaultRecord name)

/-- Modelled from the spec: `broadcast(name, raised, raisedBy)` constructs
a new record with `sequence = previous.sequence + 1`, replaces the stored
record, and delivers the new record to every listener currently registered
for that name. -/
def broadcast (bus : AlarmBus) (name : String) (raised : Bool)
    (raisedBy : String) (now : Nat) : AlarmBus :=
  let newRec : AlarmRecord :=
    { name := name, raised := raised, problemDescription := none,
      raisedBy := raisedBy, sequence := (getRecord bus name).sequence + 1,
      observedAt := now }
  { records := (name, newRec) :: bus.records,
    subs := bus.subs,
    log := bus.log ++
      (bus.subs.filter (fun p => p.1 == name)).map (fun p => (p.2, newRec)) }

/-- Modelled from the spec: `subscribe(name, callback)` registers the
callback and synchronously delivers the current snapshot (creating the
default record for a fresh name) before returning. -/
def subscribe (bus : AlarmBus) (name : String) (id : Nat) : AlarmBus :=
  { records :=
      if (bus.records.lookup name).isSome then bus.records
      else (name, defaultRecord name) :: bus.records,
    subs := bus.subs ++ [(name, id)],
    log := bus.log ++ [(id, getRecord bus name)] }

/-- Claim C3: every broadcast on a name produces a record whose sequence is
exactly the replaced sequence plus one, hence strictly greater, and this
holds equally for an idempotent repeat that broadcasts the same raised
value again. -/
theorem broadcast_sequence_strictly_increases :
    ∀ (bus : AlarmBus) (name : String) (r : Bool) (rb1 rb2 : String)
      (t1 t2 : Nat),
      (getRecord (broadcast bus name r rb1 t1) name).sequence =
        (getRecord bus name).sequence + 1
      ∧ (getRecord bus name).sequence <
          (getRecord (broadcast bus name r rb1 t1) name).sequence
      ∧ (getRecord (broadcast (broadcast bus name r rb1 t1) name r rb2 t2)
            name).sequence =
          (getRecord (broadcast bus name r rb1 t1) name).sequence + 1
      ∧ (getRecord (broadcast bus name r rb1 t1) name).sequence <
          (getRecord (broadcast (broadcast bus name r rb1 t1) name r rb2 t2)
            name).sequence := by
  intro bus name r rb1 rb2 t1 t2
  have hrec : ∀ (b : AlarmBus) (rb : String) (t : Nat),
      getRecord (broadcast b name r rb t) name =
        { name := name, raised := r, problemDescription := none,
          raisedBy := rb, sequence := (getRecord b name).sequence + 1,
          observedAt := t } := by
    intro b rb t
    simp [broadcast, getRecord, List.lookup]
  refine ⟨?_, ?_, ?_, ?_⟩ <;> simp [hrec]

/-- Claim C4: `subscribe` synchronously appends exactly one delivery — the
current snapshot of the subscribed name — to the delivery log before it
returns, for every bus state; in particular, on a bus with no broadcasts
yet, the first (and only) callback the new listener receives is the default
record with `raised = false` and `sequence = 0`, so a listener never misses
the pre-existing state. -/
theorem subscribe_delivers_current_snapshot :
    (∀ (bus : AlarmBus) (name : String) (id : Nat),
        (subscribe bus name id).log = bus.log ++ [(id, getRecord bus name)])
    ∧ (∀ (name : String) (id : Nat),
        (subscribe AlarmBus.empty name id).log =
          [(id, defaultRecord name)]
        ∧ (defaultRecord name).raised = false
        ∧ (defaultRecord name).sequence = 0) := by
  constructor
  · intro bus name id
    rfl
  · intro name id
    refine ⟨?_, rfl, rfl⟩
    simp [subscribe, AlarmBus.empty, getRecord, List.lookup]

/-! ## The heartbeat watchdog
Modelled from the spec: the production watchdog (`HeartbeatServer` /
`NetworkLoss`) is not among the sources — only the integration test that
drives it is — so the state machine is built from the specification text of
sections 3 and 4.4.  Time is in milliseconds; the raised flag of the bound
alarm is carried in the watchdog state, since `onTick` raises it through
the broadcaster on the `ALIVE → TIMED_OUT` transition. -/

/-- Modelled from the spec: the watchdog phases `AWAITING_FIRST`, `ALIVE`,
`TIMED_OUT`. -/
inductive WatchdogPhase where
  | awaitingFirst
  | alive
  | timedOut
deriving DecidableEq, Repr

/-- Modelled from the spec: a `HeartbeatSource` together with the raised
flag of its bound alarm. -/
structure WatchdogState where
  phase : WatchdogPhase
  lastSeenAt : Nat
  raised : Bool
deriving DecidableEq, Repr

/-- Modelled from the spec: `onTick()` — if the state is `ALIVE` and
`now - lastSeenAt > D`, transition to `TIMED_OUT` and raise the bound
alarm; otherwise do nothing. -/
def onTick (D now : Nat) (st : WatchdogState) : WatchdogState :=
  if st.phase = .alive ∧ D < now - st.lastSeenAt then
    { st with phase := .timedOut, raised := true }
  else st

/-- Modelled from the spec: `onSignal()` — record the signal time; from
`AWAITING_FIRST` or `TIMED_OUT` transition to `ALIVE` and clear the bound
alarm, from `ALIVE` stay `ALIVE` with no broadcast. -/
def onSignal (now : Nat) (st : WatchdogState) : WatchdogState :=
  if st.phase = .awaitingFirst ∨ st.phase = .timedOut then
    { phase := .alive, lastSeenAt := now, raised := false }
  else
    { st with lastSeenAt := now }

/-- Run the watchdog timer over a list of tick times, with no intervening
signals. -/
def runTicks (D : Nat) (st : WatchdogState) (ticks : List Nat) :
    WatchdogState :=
  ticks.foldl (fun s now => onTick D now s) st

/-- The tick times of a timer started at `c` with period `T`: the first `n`
of them. -/
def ticksList (c T n : Nat) : List Nat :=
  (List.range n).map (fun i => c + i * T)

/-- Helper: a tick at or before the deadline does nothing. -/
lemma onTick_no_fire (D now : Nat) (st : WatchdogState)
    (h : now ≤ st.lastSeenAt + D) : onTick D now st = st := by
  unfold onTick
  rw [if_neg]
  rintro ⟨_, hlt⟩
  omega

/-- Helper: ticks all at or before the deadline leave the state alone. -/
lemma runTicks_no_fire (D : Nat) :
    ∀ (ticks : List Nat) (st : WatchdogState),
      (∀ x ∈ ticks, x ≤ st.lastSeenAt + D) → runTicks D st ticks = st := by
  intro ticks
  induction ticks with
  | nil => intro st _; rfl
  | cons x ticks ih =>
    intro st h
    have hx : onTick D x st = st :=
      onTick_no_fire D x st (h x (by simp))
    show runTicks D (onTick D x st) ticks = st
    rw [hx]
    exact ih st fun y hy => h y (by simp [hy])

/-- Helper: a tick never lowers the raised flag. -/
lemma onTick_keeps_raised (D now : Nat) (st : WatchdogState)
    (h : st.raised = true) : (onTick D now st).raised = true := by
  unfold onTick
  split <;> simp [h]

/-- Helper: the raised flag stays up across any further ticks. -/
lemma runTicks_keeps_raised (D : Nat) :
    ∀ (ticks : List Nat) (st : WatchdogState),
      st.raised = true → (runTicks D st ticks).raised = true := by
  intro ticks
  induction ticks with
  | nil => intro st h; exact h
  | cons x ticks ih =>
    intro st h
    exact ih (onTick D x st) (onTick_keeps_raised D x st h)

/-- Helper: running over concatenated tick lists is running them in turn. -/
lemma runTicks_append (D : Nat) (st : WatchdogState) (l1 l2 : List Nat) :
    runTicks D st (l1 ++ l2) = runTicks D (runTicks D st l1) l2 := by
  simp [runTicks, List.foldl_append]

/-- Helper: splitting a tick schedule. -/
lemma ticksList_split (c T a b : Nat) :
    ticksList c T (a + b) =
      ticksList c T a ++ (List.range b).map (fun i => c + (a + i) * T) := by
  unfold ticksList
  rw [List.range_add, List.map_append, List.map_map]
  rfl

/-- Claim C2: for every watchdog run in which the last accepted signal was
at time `s` and no further signals arrive, provided the periodic timer
(period `T > 0`, started at `c`) has a tick at or before the deadline
`s + D`, there is a tick time in the window `(s + D, s + D + T]` from which
on the bound alarm is raised: the raised flag is true after every tick
schedule long enough to contain that tick — i.e. `raised` becomes true no
later than one tick interval after the deadline elapses, and stays true. -/
theorem heartbeat_watchdog_raises_within_one_tick
    (D T c s : Nat) (r : Bool) (hT : 0 < T) (hc : c ≤ s + D) :
    ∃ n : Nat,
      s + D < c + n * T ∧ c + n * T ≤ s + D + T ∧
      ∀ m : Nat, n < m →
        (runTicks D ⟨.alive, s, r⟩ (ticksList c T m)).raised = true := by
  have hq1 : T * ((s + D - c) / T) + (s + D - c) % T = s + D - c :=
    Nat.div_add_mod _ _
  have hq2 : (s + D - c) % T < T := Nat.mod_lt _ hT
  rw [Nat.mul_comm T ((s + D - c) / T)] at hq1
  refine ⟨(s + D - c) / T + 1, ?_, ?_, ?_⟩
  · have : ((s + D - c) / T + 1) * T = (s + D - c) / T * T + T := by ring
    omega
  · have : ((s + D - c) / T + 1) * T = (s + D - c) / T * T + T := by ring
    omega
  · intro m hm
    have hmsum : (s + D - c) / T + 1 + (m - ((s + D - c) / T + 1)) = m := by
      omega
    rw [← hmsum, ticksList_split, runTicks_append]
    have hquiet :
        runTicks D ⟨.alive, s, r⟩ (ticksList c T ((s + D - c) / T + 1)) =
          ⟨.alive, s, r⟩ := by
      refine runTicks_no_fire D _ _ ?_
      intro x hx
      simp only [ticksList, List.mem_map, List.mem_range] at hx
      obtain ⟨i, hi, rfl⟩ := hx
      have hle : i * T ≤ (s + D - c) / T * T :=
        Nat.mul_le_mul_right T (by omega)
      show c + i * T ≤ s + D
      omega
    rw [hquiet]
    have hk : m - ((s + D - c) / T + 1) = (m - ((s + D - c) / T + 1) - 1) + 1 := by
      omega
    rw [hk, List.range_succ_eq_map, List.map_cons]
    show (runTicks D
        (onTick D (c + ((s + D - c) / T + 1 + 0) * T) ⟨.alive, s, r⟩) _).raised = true
    have hfire :
        onTick D (c + ((s + D - c) / T + 1 + 0) * T) ⟨.alive, s, r⟩ =
          ⟨.timedOut, s, true⟩ := by
      unfold onTick
      rw [if_pos]
      refine ⟨rfl, ?_⟩
      show D < c + ((s + D - c) / T + 1 + 0) * T - s
      have : ((s + D - c) / T + 1 + 0) * T = (s + D - c) / T * T + T := by ring
      omega
    rw [hfire]
    exact runTicks_keeps_raised D _ _ rfl

/-- Witness for claim C2 at the concrete configuration of the test: an
8 s deadline, a 100 ms tick period started together with the last signal. -/
theorem heartbeat_watchdog_raises_within_one_tick_witness :
    ∃ n : Nat,
      0 + 8000 < 0 + n * 100 ∧ 0 + n * 100 ≤ 0 + 8000 + 100 ∧
      ∀ m : Nat, n < m →
        (runTicks 8000 ⟨.alive, 0, false⟩ (ticksList 0 100 m)).raised = true :=
  heartbeat_watchdog_raises_within_one_tick 8000 100 0 0 false (by decide)
    (by decide)

end MilFork
